import Mathlib

/-!
Shallow embedding of the `errors` annotation library (`src/errors.go`).

The library builds linked chains of error wrapper nodes.  Five value shapes
occur: the library's own terminus (`fundamental`), the three wrapper nodes
(`withStack`, `withMessage`, `withFields`), plus foreign errors produced
outside the library (the Go stdlib `errors.New` output is modelled separately
as `errorString` because `Unpack` re-materializes message nodes through it).
Go `nil` errors are modelled as `none : Option GoError`; every public
constructor returns `Option GoError`.

Field maps (`Fields = map[string]interface{}`) are modelled as association
lists with Go-map assignment semantics (`insertF` overwrites in place or
appends); `interface{}` values are modelled as strings (their identity is all
the claims observe).  Go map iteration order inside one node never matters
for the merge result because keys are unique within a map; the association
list preserves insertion order, and `lookupLast` gives the effective
per-node binding (last assignment wins, as in a Go map literal built by
successive assignments).
-/

namespace HexbeeErrors

/-- Modelled from the spec: the stack capturer (`callers`/`stack`, whose file
is not under src/) produces an opaque formattable value at the point of
construction; its contents never influence the chain algorithms, so it is
modelled as a unit token. -/
def Stack : Type := Unit

instance : DecidableEq Stack := fun _ _ => isTrue rfl

instance : Repr Stack := ⟨fun _ _ => "stack"⟩

/-- Modelled from the spec: `callers()` captures the current stack; opaque. -/
def callers : Stack := ()

/-- Field values: Go `interface{}` payloads, modelled by their identity. -/
abbrev Val := String

/-- `type Fields map[string]interface{}`, as an association list with
Go-map assignment semantics. -/
abbrev Fields := List (String × Val)

/-- The error-chain data model of `src/errors.go`.

* `fundamental`: message + stack, chain terminus (`type fundamental struct`).
* `withStack`: embedded child error + stack (`type withStack struct`).
* `withMessage`: child + message (`type withMessage struct`).
* `withFields`: child + field map (`type withFields struct`).
* `errorString`: output of the Go stdlib `errors.New`, used by `Unpack`.
* `foreign`: any other error value, a chain terminus; `tyId` identifies its
  dynamic type and `cmp` records whether that dynamic type is comparable. -/
inductive GoError where
  | fundamental (msg : String) (st : Stack)
  | withStack (child : GoError) (st : Stack)
  | withMessage (child : GoError) (msg : String)
  | withFields (child : GoError) (fields : Fields)
  | errorString (msg : String)
  | foreign (msg : String) (tyId : Nat) (cmp : Bool)
  deriving DecidableEq, Repr

/-- The `Error() string` method of each variant: `fundamental` and the
foreign termini return their own message, `withStack` delegates to the
embedded error, `withMessage` prepends `msg ++ ": "`, `withFields`
delegates to its cause. -/
def errMsg : GoError → String
  | .fundamental m _ => m
  | .withStack c _ => errMsg c
  | .withMessage c m => m ++ ": " ++ errMsg c
  | .withFields c _ => errMsg c
  | .errorString m => m
  | .foreign m _ _ => m

/-- `Error()` lifted to possibly-nil errors (`none` has no description). -/
def errMsgOpt : Option GoError → Option String
  | none => none
  | some e => some (errMsg e)

/-- The `causer` capability (`Cause() error`): exposed exactly by the three
wrapper variants; termini do not implement it. -/
def causeChild : GoError → Option GoError
  | .withStack c _ => some c
  | .withMessage c _ => some c
  | .withFields c _ => some c
  | _ => none

/-- The `fielder` capability (`Fields() Fields`) used by `GetFields`:
exposed only by `withFields`. -/
def nodeFields : GoError → Option Fields
  | .withFields _ f => some f
  | _ => none

/-! ### Field-map operations (Go map semantics) -/

/-- Go map assignment `f[k] = v`: overwrite the binding in place when the key
is present, append it otherwise. -/
def insertF (f : Fields) (k : String) (v : Val) : Fields :=
  if f.any fun p => decide (p.1 = k) then
    f.map fun p => if p.1 = k then (k, v) else p
  else
    f ++ [(k, v)]

/-- Go map read `f[k]`: the binding of `k` (first match; lists built by
`insertF` bind each key once). -/
def lookupF : Fields → String → Option Val
  | [], _ => none
  | p :: rest, k => if p.1 = k then some p.2 else lookupF rest k

/-- The effective binding of `k` in one node's list: the last assignment
wins, matching a Go map built by successive assignments. -/
def lookupLast : Fields → String → Option Val
  | [], _ => none
  | p :: rest, k =>
    match lookupLast rest k with
    | some v => some v
    | none => if p.1 = k then some p.2 else none

/-- The merge loop of `GetFields`:
`for k, v := range f.Fields() { fields[k] = v }`. -/
def mergeInto (acc : Fields) (f : Fields) : Fields :=
  f.foldl (fun a p => insertF a p.1 p.2) acc

/-- The copy loop of `WithFields`:
`f := make(Fields, len(fields)); for k, v := range fields { f[k] = v }`. -/
def copyFields (f : Fields) : Fields :=
  mergeInto [] f

/-! ### Construction API -/

/-- `New(message)`: a `fundamental` terminus with a fresh stack. -/
def New (message : String) : Option GoError :=
  some (.fundamental message callers)

/-- `Errorf(format, args...)`: same as `New` on the interpolated message;
the `fmt.Sprintf` result is taken as the argument. -/
def Errorf (formatted : String) : Option GoError :=
  some (.fundamental formatted callers)

/-- `Wrap(err, message)`: nil-in-nil-out, otherwise
`&withStack{&withMessage{err, message}, callers()}`. -/
def Wrap (err : Option GoError) (message : String) : Option GoError :=
  match err with
  | none => none
  | some e => some (.withStack (.withMessage e message) callers)

/-- `Wrapf(err, format, args...)`: as `Wrap` on the interpolated message. -/
def Wrapf (err : Option GoError) (formatted : String) : Option GoError :=
  match err with
  | none => none
  | some e => some (.withStack (.withMessage e formatted) callers)

/-- `WithMessage(err, message)`: nil-in-nil-out, otherwise a single
`withMessage` node (no stack capture). -/
def WithMessage (err : Option GoError) (message : String) : Option GoError :=
  match err with
  | none => none
  | some e => some (.withMessage e message)

/-- `WithMessagef(err, format, args...)`: interpolated variant. -/
def WithMessagef (err : Option GoError) (formatted : String) : Option GoError :=
  match err with
  | none => none
  | some e => some (.withMessage e formatted)

/-- `WithStack(err)`: nil-in-nil-out, otherwise a single `withStack` node. -/
def WithStack (err : Option GoError) : Option GoError :=
  match err with
  | none => none
  | some e => some (.withStack e callers)

/-- `WithField(err, key, value)`: nil-in-nil-out, otherwise a `withFields`
node holding the single-entry map `Fields{key: value}`. -/
def WithField (err : Option GoError) (k : String) (v : Val) : Option GoError :=
  match err with
  | none => none
  | some e => some (.withFields e [(k, v)])

/-- `WithFields(err, fields)`: nil-in-nil-out, otherwise a `withFields` node
holding a fresh copy of the supplied map. -/
def WithFields (err : Option GoError) (f : Fields) : Option GoError :=
  match err with
  | none => none
  | some e => some (.withFields e (copyFields f))

/-! ### Chain algorithms -/

/-- The loop body of `Cause`: unwrap through the `causer` capability until a
value without it is reached.  The variant dispatch makes the structural
descent explicit (`causeChild` is `some` exactly on the wrapper variants). -/
def causeAux : GoError → GoError
  | .withStack c _ => causeAux c
  | .withMessage c _ => causeAux c
  | .withFields c _ => causeAux c
  | e => e

/-- `Cause(err)`: nil yields nil, otherwise walk to the terminus. -/
def Cause : Option GoError → Option GoError
  | none => none
  | some e => some (causeAux e)

/-- The collection loop of `Unpack` with its accumulator: `withStack` and
`withFields` nodes append nothing, `withMessage` appends
`errors.New(v.msg)`, every other value appends itself; the loop then
follows the `causer` capability (wrapper variants) or stops (termini). -/
def unpackCollect : GoError → List GoError → List GoError
  | .withStack c _, acc => unpackCollect c acc
  | .withFields c _, acc => unpackCollect c acc
  | .withMessage c m, acc => unpackCollect c (acc ++ [.errorString m])
  | .fundamental m st, acc => acc ++ [.fundamental m st]
  | .errorString m, acc => acc ++ [.errorString m]
  | .foreign m t cmp, acc => acc ++ [.foreign m t cmp]

/-- `Unpack(err)`: collect along the chain, then reverse so that index 0 is
the terminus; nil yields the empty slice. -/
def Unpack (err : Option GoError) : List GoError :=
  (match err with
   | none => []
   | some e => unpackCollect e []).reverse

/-- The loop of `GetFields` with its accumulator: merge the node's fields
when it exposes the `fielder` capability, then follow the `causer`
capability or stop. -/
def getFieldsAux : GoError → Fields → Fields
  | .withStack c _, acc => getFieldsAux c acc
  | .withMessage c _, acc => getFieldsAux c acc
  | .withFields c f, acc => getFieldsAux c (mergeInto acc f)
  | _, acc => acc

/-- `GetFields(err)`: aggregate field maps walking head-to-terminus;
nil yields the empty map. -/
def GetFields (err : Option GoError) : Fields :=
  match err with
  | none => []
  | some e => getFieldsAux e []

/-! ### Fuel-indexed versions of the chain-walking loops

The Go loops are `for err != nil { ... }` loops guarded only by the
`causer` capability.  To reason about their termination (claim about
acyclicity being a precondition, not a runtime check) the loops are also
given as fuel-indexed iterations over an arbitrary step function: `none`
means the loop has not finished within the given number of iterations. -/

/-- Chain depth: number of wrapper nodes above the terminus. -/
def depth : GoError → Nat
  | .withStack c _ => depth c + 1
  | .withMessage c _ => depth c + 1
  | .withFields c _ => depth c + 1
  | _ => 0

/-- The `Cause` loop over an arbitrary "wrapped child" step function,
with fuel. -/
def causeFuel (step : α → Option α) : Nat → α → Option α
  | 0, _ => none
  | n + 1, x =>
    match step x with
    | none => some x
    | some y => causeFuel step n y

/-- The `GetFields` loop with fuel, via the `fielder` and `causer`
capabilities exactly as the Go loop dispatches. -/
def getFieldsFuel : Nat → GoError → Fields → Option Fields
  | 0, _, _ => none
  | n + 1, e, acc =>
    let acc1 :=
      match nodeFields e with
      | some f => mergeInto acc f
      | none => acc
    match causeChild e with
    | some c => getFieldsFuel n c acc1
    | none => some acc1

/-- One collection step of the `Unpack` loop: what the `switch` appends at
this node. -/
def unpackEntry : GoError → List GoError
  | .withStack _ _ => []
  | .withFields _ _ => []
  | .withMessage _ m => [.errorString m]
  | e => [e]

/-- The `Unpack` collection loop with fuel. -/
def unpackFuel : Nat → GoError → List GoError → Option (List GoError)
  | 0, _, _ => none
  | n + 1, e, acc =>
    let acc1 := acc ++ unpackEntry e
    match causeChild e with
    | some c => unpackFuel n c acc1
    | none => some acc1

/-! ### Equality of constructed values (Go interface comparison) -/

/-- The dynamic type of a value, as Go interface comparison sees it: each
library node is a distinct pointer type, `errorString` is the stdlib's
pointer type, and a foreign value carries its own type identity. -/
def dynTypeId : GoError → Nat
  | .fundamental _ _ => 0
  | .withStack _ _ => 1
  | .withMessage _ _ => 2
  | .withFields _ _ => 3
  | .errorString _ => 4
  | .foreign _ t _ => 5 + t

/-- Whether the value's dynamic type is comparable.  All library nodes and
`errorString` are pointers, hence comparable; a foreign value carries its
own flag. -/
def dynComparable : GoError → Bool
  | .foreign _ _ cmp => cmp
  | _ => true

/-- Go semantics of `x == y` on interface values: the comparison panics
exactly when both operands are non-nil, their dynamic types coincide, and
that type is not comparable. -/
def eqPanics : Option GoError → Option GoError → Bool
  | some a, some b => decide (dynTypeId a = dynTypeId b) && !dynComparable a
  | _, _ => false

/-- The outputs of the construction API, over arbitrary (possibly foreign,
possibly nil) inputs. -/
inductive APIOutput : Option GoError → Prop where
  | ofNew (m : String) : APIOutput (New m)
  | ofErrorf (m : String) : APIOutput (Errorf m)
  | ofWrap (e : Option GoError) (m : String) : APIOutput (Wrap e m)
  | ofWrapf (e : Option GoError) (m : String) : APIOutput (Wrapf e m)
  | ofWithMessage (e : Option GoError) (m : String) : APIOutput (WithMessage e m)
  | ofWithMessagef (e : Option GoError) (m : String) : APIOutput (WithMessagef e m)
  | ofWithStack (e : Option GoError) : APIOutput (WithStack e)
  | ofWithField (e : Option GoError) (k : String) (v : Val) : APIOutput (WithField e k v)
  | ofWithFields (e : Option GoError) (f : Fields) : APIOutput (WithFields e f)

/-! ### Heap model for the field-map copy (`WithFields` aliasing claim)

Go maps are reference values: to state that `WithFields` takes a snapshot
unaffected by later mutation of the caller's map, maps are placed in an
explicit store addressed by references. -/

/-- A store of field maps; a reference is an index into the list. -/
structure MapStore where
  maps : List Fields
  deriving Repr

/-- Read the map behind a reference (a dangling reference reads empty). -/
def readRef (s : MapStore) (r : Nat) : Fields :=
  (s.maps[r]?).getD []

/-- Caller-side mutation `m[k] = v` of the map behind reference `r`. -/
def writeKey (s : MapStore) (r : Nat) (k : String) (v : Val) : MapStore :=
  ⟨s.maps.set r (insertF (readRef s r) k v)⟩

/-- The construction step of `WithFields` in the store model: allocate a
fresh map holding a copy of the entries of the map behind `r`, and return
the new store and the node's reference. -/
def withFieldsAlloc (s : MapStore) (r : Nat) : MapStore × Nat :=
  (⟨s.maps ++ [copyFields (readRef s r)]⟩, s.maps.length)

/-! ### Spec-side definitions for refinement claims -/

/-- Spec-side: the value for key `k` at the fields node nearest the
terminus that binds `k` (the innermost binding along the chain). -/
def innermostField : GoError → String → Option Val
  | .withStack c _, k => innermostField c k
  | .withMessage c _, k => innermostField c k
  | .withFields c f, k =>
    match innermostField c k with
    | some v => some v
    | none => lookupLast f k
  | _, _ => none

/-! ### Helper lemmas: Go-map assignment and lookup -/

theorem lookupF_append (f g : Fields) (k : String) :
    lookupF (f ++ g) k =
      match lookupF f k with
      | some v => some v
      | none => lookupF g k := by
  induction f with
  | nil => simp [lookupF]
  | cons p rest ih =>
      by_cases h : p.1 = k
      · simp [lookupF, h]
      · simp [lookupF, h, ih]

theorem lookupF_eq_none_of_not_any (f : Fields) (k : String)
    (h : (f.any fun p => decide (p.1 = k)) = false) : lookupF f k = none := by
  induction f with
  | nil => rfl
  | cons p rest ih =>
      simp only [List.any_cons, Bool.or_eq_false_iff] at h
      have h1 : ¬ p.1 = k := of_decide_eq_false h.1
      simp [lookupF, h1, ih h.2]

theorem lookupF_map_replace_ne (f : Fields) (k k2 : String) (v : Val)
    (hne : k2 ≠ k) :
    lookupF (f.map fun p => if p.1 = k then (k, v) else p) k2 = lookupF f k2 := by
  induction f with
  | nil => rfl
  | cons p rest ih =>
      simp only [List.map_cons, lookupF]
      by_cases h : p.1 = k
      · rw [if_pos h]
        have hk2 : ¬ (k, v).1 = k2 := fun hk => hne hk.symm
        have hp2 : ¬ p.1 = k2 := fun hp => hne (hp.symm.trans h)
        rw [if_neg hk2, ih, if_neg hp2]
      · rw [if_neg h, ih]

theorem lookupF_map_replace_eq (f : Fields) (k : String) (v : Val)
    (h : (f.any fun p => decide (p.1 = k)) = true) :
    lookupF (f.map fun p => if p.1 = k then (k, v) else p) k = some v := by
  induction f with
  | nil => simp at h
  | cons p rest ih =>
      by_cases hp : p.1 = k
      · simp [lookupF, hp]
      · simp only [List.any_cons, Bool.or_eq_true] at h
        rcases h with h | h
        · exact absurd (by simpa using h) hp
        · simp [lookupF, hp, ih h]

/-- Go map assignment then read: the assigned key reads the new value,
every other key is untouched. -/
theorem lookupF_insertF (f : Fields) (k k2 : String) (v : Val) :
    lookupF (insertF f k v) k2 = if k2 = k then some v else lookupF f k2 := by
  unfold insertF
  cases hany : (f.any fun p => decide (p.1 = k)) with
  | true =>
      rw [if_pos (rfl : true = true)]
      by_cases hk : k2 = k
      · subst hk
        rw [if_pos rfl, lookupF_map_replace_eq f k2 v hany]
      · rw [if_neg hk, lookupF_map_replace_ne f k k2 v hk]
  | false =>
      rw [if_neg (by simp : ¬ false = true), lookupF_append]
      have hnone := lookupF_eq_none_of_not_any f k hany
      by_cases hk : k2 = k
      · subst hk
        simp [hnone, lookupF]
      · have hk2 : ¬ k = k2 := fun h => hk h.symm
        cases hcase : lookupF f k2 with
        | some w => simp [hcase, hk]
        | none => simp [hcase, lookupF, hk, hk2]

/-- Merging one node's map into the accumulator: the node's own effective
binding (its last assignment) overrides whatever the accumulator held. -/
theorem lookupF_mergeInto (f : Fields) (acc : Fields) (k : String) :
    lookupF (mergeInto acc f) k =
      match lookupLast f k with
      | some v => some v
      | none => lookupF acc k := by
  induction f generalizing acc with
  | nil => simp [mergeInto, lookupLast, List.foldl]
  | cons p rest ih =>
      have hstep : mergeInto acc (p :: rest) = mergeInto (insertF acc p.1 p.2) rest := rfl
      rw [hstep, ih]
      cases hrest : lookupLast rest k with
      | some v => simp [lookupLast, hrest]
      | none =>
          rw [lookupF_insertF]
          by_cases hk : p.1 = k
          · simp [lookupLast, hrest, hk]
          · have : ¬ k = p.1 := fun h => hk h.symm
            simp [lookupLast, hrest, hk, this]

/-- The `GetFields` loop refines the innermost-binding-wins specification:
the aggregated value of a key is the binding at the fields node nearest the
terminus, falling back to the incoming accumulator. -/
theorem lookupF_getFieldsAux (e : GoError) (acc : Fields) (k : String) :
    lookupF (getFieldsAux e acc) k =
      match innermostField e k with
      | some v => some v
      | none => lookupF acc k := by
  induction e generalizing acc with
  | fundamental m st => simp [getFieldsAux, innermostField]
  | withStack c st ih => simpa [getFieldsAux, innermostField] using ih acc
  | withMessage c m ih => simpa [getFieldsAux, innermostField] using ih acc
  | withFields c f ih =>
      rw [show getFieldsAux (.withFields c f) acc = getFieldsAux c (mergeInto acc f) from rfl]
      rw [ih, lookupF_mergeInto]
      cases hc : innermostField c k with
      | some v => simp [innermostField, hc]
      | none =>
          cases hf : lookupLast f k with
          | some v => simp [innermostField, hc, hf]
          | none => simp [innermostField, hc, hf]
  | errorString m => simp [getFieldsAux, innermostField]
  | foreign m t cmp => simp [getFieldsAux, innermostField]

/-- C1, the claim as stated, is false on the code: with the same key at an
outer and an inner fields node, `GetFields` returns the inner node's value,
not the outer one's. -/
theorem getFields_outer_wins_counterexample :
    lookupF
      (GetFields (some (GoError.withFields
        (GoError.withFields (GoError.fundamental "x" callers) [("k", "inner")])
        [("k", "outer")])))
      "k" = some "inner"
    ∧ ¬ lookupF
      (GetFields (some (GoError.withFields
        (GoError.withFields (GoError.fundamental "x" callers) [("k", "inner")])
        [("k", "outer")])))
      "k" = some "outer" := by
  constructor
  · rfl
  · decide

/-- C1 (amended): the field aggregation walks head-to-terminus with plain
overwrite-on-merge, so the last-visited node wins: for every key,
`GetFields` returns the binding of the fields node closest to the terminus
(inner overwrites outer). -/
theorem getFields_innermost_wins (e : GoError) (k : String) :
    lookupF (GetFields (some e)) k = innermostField e k := by
  rw [show GetFields (some e) = getFieldsAux e [] from rfl]
  rw [lookupF_getFieldsAux]
  cases h : innermostField e k with
  | some v => simp
  | none => simp [lookupF]

/-! ### Helper lemmas: the Unpack collection loop -/

theorem unpackCollect_acc (e : GoError) :
    ∀ acc, unpackCollect e acc = acc ++ unpackCollect e [] := by
  induction e with
  | fundamental m st => intro acc; simp [unpackCollect]
  | withStack c st ih => intro acc; simp only [unpackCollect]; exact ih acc
  | withMessage c m ih =>
      intro acc
      simp only [unpackCollect]
      rw [ih (acc ++ [GoError.errorString m]), ih ([] ++ [GoError.errorString m])]
      simp
  | withFields c f ih => intro acc; simp only [unpackCollect]; exact ih acc
  | errorString m => intro acc; simp [unpackCollect]
  | foreign m t cmp => intro acc; simp [unpackCollect]

theorem unpackCollect_ne_nil (e : GoError) : unpackCollect e [] ≠ [] := by
  induction e with
  | fundamental m st => simp [unpackCollect]
  | withStack c st ih => simpa [unpackCollect] using ih
  | withMessage c m ih =>
      simp only [unpackCollect]
      rw [unpackCollect_acc c ([] ++ [GoError.errorString m])]
      simp
  | withFields c f ih => simpa [unpackCollect] using ih
  | errorString m => simp [unpackCollect]
  | foreign m t cmp => simp [unpackCollect]

theorem unpackCollect_getLast (e : GoError) :
    (unpackCollect e []).getLast? = some (causeAux e) := by
  induction e with
  | fundamental m st => rfl
  | withStack c st ih => simpa [unpackCollect, causeAux] using ih
  | withMessage c m ih =>
      simp only [unpackCollect, causeAux]
      rw [unpackCollect_acc c ([] ++ [GoError.errorString m]),
        List.getLast?_append, ih]
      simp
  | withFields c f ih => simpa [unpackCollect, causeAux] using ih
  | errorString m => rfl
  | foreign m t cmp => rfl

/-- C2: every annotation function taking an error input is nil-in-nil-out:
`Wrap`, `Wrapf`, `WithMessage`, `WithMessagef`, `WithStack`, `WithField`
and `WithFields` all return `none` on `none`, building no node. -/
theorem annotation_nil_in_nil_out :
    (∀ m : String, Wrap none m = none)
    ∧ (∀ m : String, Wrapf none m = none)
    ∧ (∀ m : String, WithMessage none m = none)
    ∧ (∀ m : String, WithMessagef none m = none)
    ∧ WithStack none = none
    ∧ (∀ (k : String) (v : Val), WithField none k v = none)
    ∧ (∀ f : Fields, WithFields none f = none) :=
  ⟨fun _ => rfl, fun _ => rfl, fun _ => rfl, fun _ => rfl, rfl,
   fun _ _ => rfl, fun _ => rfl⟩

/-- C3: on a non-nil input, `Wrap` builds exactly the two-node shape with
the message annotation innermost and the stack annotation outermost, and
the resulting description is `message ++ ": " ++` the input's description. -/
theorem wrap_two_nodes (e : GoError) (m : String) :
    Wrap (some e) m = some (.withStack (.withMessage e m) callers)
    ∧ errMsgOpt (Wrap (some e) m) = some (m ++ ": " ++ errMsg e) :=
  ⟨rfl, rfl⟩

/-- C5: `Unpack` is the reversal of a head-to-terminus collection in which
a stack node contributes nothing, a message node contributes its message
re-materialized as a plain-description error, and a terminus (library or
foreign) contributes itself as-is; hence index 0 of the result is the
chain's terminus (root cause) and each outer message annotation lands after
its child's entries (outermost-last). -/
theorem unpack_ordering :
    Unpack none = []
    ∧ (∀ e : GoError, Unpack (some e) = (unpackCollect e []).reverse)
    ∧ (∀ (c : GoError) (st : Stack), Unpack (some (.withStack c st)) = Unpack (some c))
    ∧ (∀ (c : GoError) (m : String),
        Unpack (some (.withMessage c m)) = Unpack (some c) ++ [.errorString m])
    ∧ (∀ (m : String) (st : Stack), Unpack (some (.fundamental m st)) = [.fundamental m st])
    ∧ (∀ m : String, Unpack (some (.errorString m)) = [.errorString m])
    ∧ (∀ (m : String) (t : Nat) (cmp : Bool),
        Unpack (some (.foreign m t cmp)) = [.foreign m t cmp])
    ∧ (∀ e : GoError, (Unpack (some e)).head? = some (causeAux e)) := by
  refine ⟨rfl, fun _ => rfl, fun _ _ => rfl, ?_, fun _ _ => rfl, fun _ => rfl,
    fun _ _ _ => rfl, ?_⟩
  · intro c m
    show (unpackCollect c ([] ++ [GoError.errorString m])).reverse = _
    rw [unpackCollect_acc c ([] ++ [GoError.errorString m])]
    simp [Unpack]
  · intro e
    show ((unpackCollect e []).reverse).head? = _
    rw [List.head?_reverse, unpackCollect_getLast]

/-- C9: stack and field annotations never alter the description:
`WithStack(e)` and `WithFields(e, f)` describe exactly as `e` does. -/
theorem stack_fields_preserve_description (e : GoError) (f : Fields) :
    errMsgOpt (WithStack (some e)) = some (errMsg e)
    ∧ errMsgOpt (WithFields (some e) f) = some (errMsg e)
    ∧ errMsg (.withStack e callers) = errMsg e
    ∧ errMsg (.withFields e f) = errMsg e :=
  ⟨rfl, rfl, rfl, rfl⟩

/-- C10: `Unpack` contributes no entry for a field-annotation node:
unpacking `WithFields(e, f)` (or a raw `withFields` node) gives exactly the
unpacking of `e`. -/
theorem unpack_skips_fields (e : GoError) (f : Fields) :
    Unpack (WithFields (some e) f) = Unpack (some e)
    ∧ Unpack (some (.withFields e f)) = Unpack (some e) :=
  ⟨rfl, rfl⟩

/-! ### Helper lemmas: the Cause walk -/

theorem causeAux_eq_self_of_no_child (e : GoError) (h : causeChild e = none) :
    causeAux e = e := by
  cases e with
  | fundamental m st => rfl
  | withStack c st => simp [causeChild] at h
  | withMessage c m => simp [causeChild] at h
  | withFields c f => simp [causeChild] at h
  | errorString m => rfl
  | foreign m t cmp => rfl

theorem causeAux_step (e c : GoError) (h : causeChild e = some c) :
    causeAux e = causeAux c := by
  cases e with
  | fundamental m st => simp [causeChild] at h
  | withStack c2 st =>
      simp only [causeChild, Option.some.injEq] at h
      rw [show causeAux (.withStack c2 st) = causeAux c2 from rfl, h]
  | withMessage c2 m =>
      simp only [causeChild, Option.some.injEq] at h
      rw [show causeAux (.withMessage c2 m) = causeAux c2 from rfl, h]
  | withFields c2 f =>
      simp only [causeChild, Option.some.injEq] at h
      rw [show causeAux (.withFields c2 f) = causeAux c2 from rfl, h]
  | errorString m => simp [causeChild] at h
  | foreign m t cmp => simp [causeChild] at h

theorem causeChild_causeAux (e : GoError) : causeChild (causeAux e) = none := by
  induction e with
  | fundamental m st => rfl
  | withStack c st ih => exact ih
  | withMessage c m ih => exact ih
  | withFields c f ih => exact ih
  | errorString m => rfl
  | foreign m t cmp => rfl

/-- C4: `Cause` walks from the input, repeatedly unwrapping through the
`causer` capability, and returns the terminal value: nil gives nil, a value
without the capability is returned unchanged, one unwrapping step preserves
the result, the returned value exposes no capability, and a double `Wrap`
around a terminus unwraps fully back to it. -/
theorem cause_walk :
    Cause none = none
    ∧ (∀ e : GoError, causeChild e = none → Cause (some e) = some e)
    ∧ (∀ e c : GoError, causeChild e = some c → Cause (some e) = Cause (some c))
    ∧ (∀ e : GoError, causeChild (causeAux e) = none)
    ∧ (∀ (e : GoError) (a b : String), causeChild e = none →
        Cause (Wrap (Wrap (some e) a) b) = some e) := by
  refine ⟨rfl, ?_, ?_, causeChild_causeAux, ?_⟩
  · intro e h
    show some (causeAux e) = some e
    rw [causeAux_eq_self_of_no_child e h]
  · intro e c h
    show some (causeAux e) = some (causeAux c)
    rw [causeAux_step e c h]
  · intro e a b h
    show some (causeAux (.withStack (.withMessage
      (.withStack (.withMessage e a) callers) b) callers)) = some e
    rw [show causeAux (GoError.withStack (GoError.withMessage
      (GoError.withStack (GoError.withMessage e a) callers) b) callers)
      = causeAux e from rfl]
    rw [causeAux_eq_self_of_no_child e h]

/-- Witness for C4 at a concrete chain. -/
theorem cause_walk_witness :
    Cause (Wrap (Wrap (some (GoError.fundamental "x" callers)) "a") "b")
      = some (GoError.fundamental "x" callers) :=
  cause_walk.2.2.2.2 (GoError.fundamental "x" callers) "a" "b" rfl

/-! ### C8: termination of the chain walks -/

/-- C8: on every (finite, acyclic by construction) chain, the fuel-indexed
forms of the three walking loops (`Cause`, `GetFields`, `Unpack`) finish
within `depth + 1` iterations and compute the total functions; the loops
carry no cycle guard, so on a value whose wrapped-child capability returns
the value itself the `Cause` loop never finishes, for any amount of fuel —
acyclicity is a precondition, not a runtime check. -/
theorem chain_walks_terminate :
    (∀ e : GoError, causeFuel causeChild (depth e + 1) e = some (causeAux e))
    ∧ (∀ (e : GoError) (acc : Fields),
        getFieldsFuel (depth e + 1) e acc = some (getFieldsAux e acc))
    ∧ (∀ (e : GoError) (acc : List GoError),
        unpackFuel (depth e + 1) e acc = some (unpackCollect e acc))
    ∧ (∀ (n : Nat) (e : GoError), causeFuel (fun y => some y) n e = none) := by
  refine ⟨?_, ?_, ?_, ?_⟩
  · intro e
    induction e with
    | fundamental m st => rfl
    | withStack c st ih => simpa [depth, causeFuel, causeChild, causeAux] using ih
    | withMessage c m ih => simpa [depth, causeFuel, causeChild, causeAux] using ih
    | withFields c f ih => simpa [depth, causeFuel, causeChild, causeAux] using ih
    | errorString m => rfl
    | foreign m t cmp => rfl
  · intro e
    induction e with
    | fundamental m st => intro acc; rfl
    | withStack c st ih =>
        intro acc
        simpa [depth, getFieldsFuel, causeChild, nodeFields, getFieldsAux] using ih acc
    | withMessage c m ih =>
        intro acc
        simpa [depth, getFieldsFuel, causeChild, nodeFields, getFieldsAux] using ih acc
    | withFields c f ih =>
        intro acc
        simpa [depth, getFieldsFuel, causeChild, nodeFields, getFieldsAux]
          using ih (mergeInto acc f)
    | errorString m => intro acc; rfl
    | foreign m t cmp => intro acc; rfl
  · intro e
    induction e with
    | fundamental m st => intro acc; rfl
    | withStack c st ih =>
        intro acc
        simpa [depth, unpackFuel, causeChild, unpackEntry, unpackCollect] using ih acc
    | withMessage c m ih =>
        intro acc
        simpa [depth, unpackFuel, causeChild, unpackEntry, unpackCollect]
          using ih (acc ++ [GoError.errorString m])
    | withFields c f ih =>
        intro acc
        simpa [depth, unpackFuel, causeChild, unpackEntry, unpackCollect] using ih acc
    | errorString m => intro acc; rfl
    | foreign m t cmp => intro acc; rfl
  · intro n
    induction n with
    | zero => intro e; rfl
    | succ n ih => intro e; simpa [causeFuel] using ih e

/-! ### C7: equality of constructed values never panics -/

theorem apiOutput_comparable (x : Option GoError) (hx : APIOutput x) :
    x = none ∨ ∃ e : GoError, x = some e ∧ dynComparable e = true := by
  cases hx with
  | ofNew m => exact Or.inr ⟨_, rfl, rfl⟩
  | ofErrorf m => exact Or.inr ⟨_, rfl, rfl⟩
  | ofWrap e m =>
      cases e with
      | none => exact Or.inl rfl
      | some e2 => exact Or.inr ⟨_, rfl, rfl⟩
  | ofWrapf e m =>
      cases e with
      | none => exact Or.inl rfl
      | some e2 => exact Or.inr ⟨_, rfl, rfl⟩
  | ofWithMessage e m =>
      cases e with
      | none => exact Or.inl rfl
      | some e2 => exact Or.inr ⟨_, rfl, rfl⟩
  | ofWithMessagef e m =>
      cases e with
      | none => exact Or.inl rfl
      | some e2 => exact Or.inr ⟨_, rfl, rfl⟩
  | ofWithStack e =>
      cases e with
      | none => exact Or.inl rfl
      | some e2 => exact Or.inr ⟨_, rfl, rfl⟩
  | ofWithField e k v =>
      cases e with
      | none => exact Or.inl rfl
      | some e2 => exact Or.inr ⟨_, rfl, rfl⟩
  | ofWithFields e f =>
      cases e with
      | none => exact Or.inl rfl
      | some e2 => exact Or.inr ⟨_, rfl, rfl⟩

/-- C7: comparing any two values produced by the construction API with the
generic equality operator is defined and never panics: every constructed
non-nil value has a comparable (pointer) dynamic type, and nil operands
never panic. -/
theorem constructed_eq_never_panics (x y : Option GoError)
    (hx : APIOutput x) (hy : APIOutput y) : eqPanics x y = false := by
  rcases apiOutput_comparable x hx with hxn | ⟨a, hxa, hcmp⟩
  · subst hxn; rfl
  · subst hxa
    cases y with
    | none => rfl
    | some b => simp [eqPanics, hcmp]

/-- Witness for C7 on two concrete construction outputs (one nil). -/
theorem constructed_eq_never_panics_witness :
    eqPanics (New "a") (WithStack none) = false :=
  constructed_eq_never_panics (New "a") (WithStack none)
    (APIOutput.ofNew "a") (APIOutput.ofWithStack none)

/-! ### C6: the WithFields copy is a snapshot -/

theorem readRef_alloc (s : MapStore) (r : Nat) :
    readRef (withFieldsAlloc s r).1 (withFieldsAlloc s r).2
      = copyFields (readRef s r) := by
  show ((s.maps ++ [copyFields (readRef s r)])[s.maps.length]?).getD [] = _
  rw [List.getElem?_concat_length]
  rfl

theorem readRef_writeKey_other (s : MapStore) (r r2 : Nat) (k : String) (v : Val)
    (h : r ≠ r2) : readRef (writeKey s r k v) r2 = readRef s r2 := by
  show ((s.maps.set r (insertF (readRef s r) k v))[r2]?).getD [] = _
  rw [List.getElem?_set_ne h]
  rfl

/-- C6: `WithFields` stores a shallow copy of the caller's map taken at
construction time: in the store model, allocating the node's map from the
map behind `r` and then mutating the caller's map leaves the node's stored
fields — and their observation through `GetFields` — unchanged. -/
theorem withFields_copy_snapshot (s : MapStore) (r : Nat) (e : GoError)
    (k : String) (v : Val) (h : r < s.maps.length) :
    readRef (writeKey (withFieldsAlloc s r).1 r k v) (withFieldsAlloc s r).2
      = readRef (withFieldsAlloc s r).1 (withFieldsAlloc s r).2
    ∧ readRef (withFieldsAlloc s r).1 (withFieldsAlloc s r).2
      = copyFields (readRef s r)
    ∧ GetFields (some (.withFields e
        (readRef (writeKey (withFieldsAlloc s r).1 r k v) (withFieldsAlloc s r).2)))
      = GetFields (some (.withFields e (copyFields (readRef s r)))) := by
  have hne : r ≠ (withFieldsAlloc s r).2 := Nat.ne_of_lt h
  have h1 := readRef_writeKey_other (withFieldsAlloc s r).1 r (withFieldsAlloc s r).2 k v hne
  have h2 := readRef_alloc s r
  exact ⟨h1.trans h2 |>.trans h2.symm, h2, by rw [h1.trans h2]⟩

/-- Witness for C6 at a concrete store, reference, key and value. -/
theorem withFields_copy_snapshot_witness :
    readRef (writeKey (withFieldsAlloc ⟨[[("k", "v0")]]⟩ 0).1 0 "k" "v1")
        (withFieldsAlloc ⟨[[("k", "v0")]]⟩ 0).2
      = readRef (withFieldsAlloc ⟨[[("k", "v0")]]⟩ 0).1
          (withFieldsAlloc ⟨[[("k", "v0")]]⟩ 0).2 :=
  (withFields_copy_snapshot ⟨[[("k", "v0")]]⟩ 0 (GoError.fundamental "x" callers)
    "k" "v1" (by decide)).1

end HexbeeErrors
